import Mathlib

/-!
Verification of the luma-interview video-generation API against its
specification.  The Python sources under `src/luma_api` are shallowly
embedded: enumerations become inductive types, dict-based configuration
tables become total functions, the in-memory state of the rate limiter
and the priority queues becomes explicit list-valued state threaded
through pure step functions, and Python `int()` on non-negative rationals
is modelled by `Int.floor`.
-/

namespace Luma

/-- `JobStatus` from `models/job.py`. -/
inductive JobStatus where
  | pending
  | queued
  | processing
  | completed
  | failed
  | cancelled
  | expired
deriving DecidableEq, Repr

/-- `QueuePriority` from `models/job.py`. -/
inductive QueuePriority where
  | critical
  | high
  | normal
deriving DecidableEq, Repr

/-- `UserTier` from `config.py`. -/
inductive UserTier where
  | free
  | developer
  | pro
  | enterprise
deriving DecidableEq, Repr

/-- `TierConfig` from `config.py`.  `daily_quota` is an integer because
the ENTERPRISE tier uses `-1` for "unlimited". -/
structure TierConfig where
  rate_limit_per_minute : Nat
  daily_quota : Int
  max_concurrent_jobs : Nat
  max_video_duration : Nat
  queue_priority_weight : Nat
  can_generate : Bool
  can_batch_generate : Bool
deriving DecidableEq, Repr

/-- The `TIER_CONFIGS` dict from `config.py`, as a total function
(`get_tier_config` indexes the dict with a key that is always present). -/
def get_tier_config : UserTier → TierConfig
  | .free =>
      { rate_limit_per_minute := 10, daily_quota := 100,
        max_concurrent_jobs := 0, max_video_duration := 0,
        queue_priority_weight := 0, can_generate := false,
        can_batch_generate := false }
  | .developer =>
      { rate_limit_per_minute := 30, daily_quota := 500,
        max_concurrent_jobs := 3, max_video_duration := 30,
        queue_priority_weight := 1, can_generate := true,
        can_batch_generate := false }
  | .pro =>
      { rate_limit_per_minute := 100, daily_quota := 5000,
        max_concurrent_jobs := 10, max_video_duration := 120,
        queue_priority_weight := 5, can_generate := true,
        can_batch_generate := true }
  | .enterprise =>
      { rate_limit_per_minute := 1000, daily_quota := -1,
        max_concurrent_jobs := 100, max_video_duration := 300,
        queue_priority_weight := 10, can_generate := true,
        can_batch_generate := true }

/-- The `JOB_TRANSITIONS` dict from `models/job.py`; the Python sets of
target statuses become lists. -/
def JOB_TRANSITIONS : JobStatus → List JobStatus
  | .pending => [.queued, .cancelled]
  | .queued => [.processing, .cancelled, .expired]
  | .processing => [.completed, .failed]
  | .completed => []
  | .failed => []
  | .cancelled => []
  | .expired => []

/-- `can_transition` from `models/job.py`: membership of the target in
the transition table entry of the source. -/
def can_transition (from_status to_status : JobStatus) : Bool :=
  to_status ∈ JOB_TRANSITIONS from_status

/-- A job record: the fields of `models/job.py`'s `Job` that the verified
operations read or write.  Timestamps are rationals (Python floats /
datetimes are totally ordered time points). -/
structure Job where
  id : String
  user_id : String
  status : JobStatus
  priority : QueuePriority
  duration : Nat
  completed_at : Option ℚ
deriving DecidableEq, Repr

/-- `JobWorker._update_job_status` from `queue/worker.py`: update the
status only when the transition is valid, returning whether it happened. -/
def update_job_status (job : Job) (new_status : JobStatus) : Bool × Job :=
  if can_transition job.status new_status then
    (true, { job with status := new_status })
  else
    (false, job)

/-- `QueueService.TIER_PRIORITY_MAP.get(tier, NORMAL)` from
`services/queue_service.py`: tiers outside the map fall back to NORMAL. -/
def get_priority_for_tier : UserTier → QueuePriority
  | .enterprise => .critical
  | .pro => .high
  | .developer => .normal
  | .free => .normal

/-- Python `int()` applied to a rational: truncation towards zero. -/
def py_int (q : ℚ) : ℤ :=
  if q < 0 then ⌈q⌉ else ⌊q⌋

/-! ### Priority queue (`queue/priority_queue.py`, local path) -/

/-- The three in-memory queues of `PriorityQueue._local_queues`; each queue
is a list of `(job_id, score)` pairs kept sorted ascending by score. -/
structure QueueState where
  critical : List (String × ℚ)
  high : List (String × ℚ)
  normal : List (String × ℚ)
deriving DecidableEq, Repr

def queue_of (qs : QueueState) : QueuePriority → List (String × ℚ)
  | .critical => qs.critical
  | .high => qs.high
  | .normal => qs.normal

def set_queue (qs : QueueState) : QueuePriority → List (String × ℚ) → QueueState
  | .critical, l => { qs with critical := l }
  | .high, l => { qs with high := l }
  | .normal, l => { qs with normal := l }

/-- Insert a pair after every entry whose score is ≤ its score.  This is
what `queue.append(pair); queue.sort(key=lambda x: x[1])` computes on an
already score-sorted queue, Python's sort being stable (the appended pair
is last, so it lands after all entries with an equal score). -/
def sorted_insert_last (p : String × ℚ) : List (String × ℚ) → List (String × ℚ)
  | [] => [p]
  | q :: qs => if q.2 ≤ p.2 then q :: sorted_insert_last p qs else p :: q :: qs

/-- `PriorityQueue._enqueue_local`: insert keeping the score order, then
`return len(queue)`. -/
def enqueue_local (queue : List (String × ℚ)) (job_id : String) (score : ℚ) :
    List (String × ℚ) × Nat :=
  let q1 := sorted_insert_last (job_id, score) queue
  (q1, q1.length)

/-- 1-indexed rank of a job id in a queue (position of its first
occurrence). -/
def rank_of (job_id : String) (queue : List (String × ℚ)) : Nat :=
  (queue.map Prod.fst).indexOf job_id + 1

/-- The weighted random selection of `_dequeue_local`: with
`choice = r ∈ [1, 16]`, the first priority in `[CRITICAL, HIGH, NORMAL]`
whose cumulative weight (10, 15, 16) reaches `r`. -/
def weighted_choice (r : Nat) : Option QueuePriority :=
  if r ≤ 10 then some .critical
  else if r ≤ 15 then some .high
  else if r ≤ 16 then some .normal
  else none

/-- The secondary loop of `_dequeue_local`: pop the head of the first
non-empty queue in the fixed order CRITICAL, HIGH, NORMAL. -/
def dequeue_fallback (qs : QueueState) : Option String × QueueState :=
  match qs.critical with
  | e :: rest => (some e.1, { qs with critical := rest })
  | [] =>
    match qs.high with
    | e :: rest => (some e.1, { qs with high := rest })
    | [] =>
      match qs.normal with
      | e :: rest => (some e.1, { qs with normal := rest })
      | [] => (none, qs)

/-- `PriorityQueue._dequeue_local` with the draw of
`random.randint(1, 16)` passed in as `r`:  try the weighted choice; if its
queue is empty (or the loop chose nothing), fall back through all queues
in priority order. -/
def dequeue_local (qs : QueueState) (r : Nat) : Option String × QueueState :=
  match weighted_choice r with
  | some p =>
    match queue_of qs p with
    | e :: rest => (some e.1, set_queue qs p rest)
    | [] => dequeue_fallback qs
  | none => dequeue_fallback qs

/-- `PriorityQueue.ESTIMATED_PROCESSING_TIME`. -/
def ESTIMATED_PROCESSING_TIME : Int := 30

/-- `PriorityQueue._estimate_wait`: `jobs_ahead = position - 1` plus, for
HIGH, `int(len_critical * 0.5)` and, for NORMAL,
`int(len_critical * 0.3) + int(len_high * 0.3 * 0.5)`; the result is
`jobs_ahead * 30`.  The float literals are modelled as the rationals they
denote, and `int()` of these non-negative products is `Int.floor`. -/
def estimate_wait (position : Nat) (priority : QueuePriority)
    (len_critical len_high : Nat) : Int :=
  let jobs_ahead : Int := (position : Int) - 1
  let extra : Int :=
    match priority with
    | .normal => ⌊(len_critical : ℚ) * (3 / 10)⌋ + ⌊(len_high : ℚ) * (3 / 10) * (1 / 2)⌋
    | .high => ⌊(len_critical : ℚ) * (1 / 2)⌋
    | .critical => 0
  (jobs_ahead + extra) * ESTIMATED_PROCESSING_TIME

/-! ### Rate limiting (`queue/lua_scripts.py`, `services/rate_limit_service.py`) -/

/-- The score of the oldest entry of a sorted-set state
(`ZRANGE key 0 0 WITHSCORES`), with a default for the empty set. -/
def oldest_score (entries : List (String × ℚ)) (dflt : ℚ) : ℚ :=
  match entries.map Prod.snd with
  | [] => dflt
  | s :: rest => rest.foldl min s

/-- `RATE_LIMIT_SCRIPT` from `queue/lua_scripts.py`.  The Redis sorted set
under the key is a list of `(request_id, score)` entries.
`ZREMRANGEBYSCORE key 0 (now - window)` drops the entries with
`0 ≤ score ≤ now - window`; `ZCARD` is the length; on `count < limit` the
entry `(request_id, now)` is added and `{1, limit - count - 1,
math.floor(now + window)}` returned; otherwise nothing is added and
`{0, 0, math.floor(oldest + window)}` is returned, where `oldest` is the
lowest score (defaulting to `now` for an empty set). -/
def rate_limit_script (window : ℚ) (limit : Nat) (now : ℚ) (request_id : String)
    (entries : List (String × ℚ)) : (Bool × Int × Int) × List (String × ℚ) :=
  let kept := entries.filter fun e => !decide (0 ≤ e.2 ∧ e.2 ≤ now - window)
  let count := kept.length
  if count < limit then
    ((true, (limit : Int) - count - 1, ⌊now + window⌋), kept ++ [(request_id, now)])
  else
    ((false, 0, ⌊oldest_score kept now + window⌋), kept)

/-- The expiry removal of `RateLimitService._check_local`: keep the
timestamps with `ts > now - window`. -/
def check_local_prune (window now : ℚ) (entries : List ℚ) : List ℚ :=
  entries.filter fun ts => decide (now - window < ts)

/-- One call of `RateLimitService._check_local` on the per-key timestamp
list, returning whether the request was allowed and the new list. -/
def check_local_step (window : ℚ) (limit : Nat) (entries : List ℚ) (now : ℚ) :
    Bool × List ℚ :=
  let kept := check_local_prune window now entries
  if kept.length < limit then (true, kept ++ [now]) else (false, kept)

/-- Run a sequence of `_check_local` calls from a given per-key state and
collect the timestamps of the calls that were allowed. -/
def run_allowed (window : ℚ) (limit : Nat) (entries : List ℚ) :
    List ℚ → List ℚ
  | [] => []
  | t :: ts =>
    let r := check_local_step window limit entries t
    (if r.1 then [t] else []) ++ run_allowed window limit r.2 ts

/-- `RateLimitResult` from `services/rate_limit_service.py`. -/
structure RateLimitResult where
  allowed : Bool
  limit : Nat
  remaining : Int
  reset_at : Int
  window_seconds : Nat
deriving DecidableEq, Repr

/-- `RateLimitService._check_redis`: the Redis call either yields the Lua
script's `(allowed, remaining, reset_at)` triple or raises; on an
exception the service fails open with `(true, limit - 1,
int(now + window))`. -/
def check_redis (limit window_seconds : Nat) (now : ℚ)
    (store : Except String (Bool × Int × Int)) : RateLimitResult :=
  match store with
  | .ok (a, r, t) =>
    { allowed := a, limit := limit, remaining := r, reset_at := t,
      window_seconds := window_seconds }
  | .error _ =>
    { allowed := true, limit := limit, remaining := (limit : Int) - 1,
      reset_at := py_int (now + (window_seconds : ℚ)),
      window_seconds := window_seconds }

/-- `RateLimitService.check_and_increment` on the Redis path: the limit is
the tier's `rate_limit_per_minute` and the window is 60 seconds. -/
def check_and_increment_redis (tier : UserTier) (now : ℚ)
    (store : Except String (Bool × Int × Int)) : RateLimitResult :=
  check_redis (get_tier_config tier).rate_limit_per_minute 60 now store

/-! ### Job service (`services/job_service.py`) -/

/-- The admission errors `create_job` can raise. -/
inductive AdmissionError where
  | insufficientTier (current required : UserTier)
  | quotaExceeded (quota_type : String) (limit used : Int)
deriving DecidableEq, Repr

/-- The errors `get_job` / `cancel_job` can raise. -/
inductive CancelError where
  | jobNotFound (job_id : String)
  | permissionDenied (job_id : String)
  | jobCancelled (job_id : String) (current : JobStatus)
deriving DecidableEq, Repr

/-- The `terminal_statuses` set of `JobService._count_active_jobs`. -/
def terminal_statuses : List JobStatus :=
  [.completed, .failed, .cancelled, .expired]

/-- `JobService._count_active_jobs`: the user's jobs whose status is not
terminal. -/
def count_active_jobs (jobs : List Job) (user_id : String) : Nat :=
  jobs.countP fun j => j.user_id == user_id && !(terminal_statuses.contains j.status)

/-- `JobService.create_job` up to the creation of the PENDING job: the
four admission checks in program order, then the new job.  `daily_usage`
is `storage.usage.get_daily(user.id)` and `jobs` the stored jobs. -/
def create_job (tier : UserTier) (duration daily_usage : Nat) (jobs : List Job)
    (user_id job_id : String) : Except AdmissionError Job :=
  let cfg := get_tier_config tier
  if ¬ cfg.can_generate then
    .error (.insufficientTier tier .developer)
  else if cfg.max_video_duration < duration then
    .error (.insufficientTier tier (if duration ≤ 120 then .pro else .enterprise))
  else if 0 < cfg.daily_quota ∧ cfg.daily_quota ≤ (daily_usage : Int) then
    .error (.quotaExceeded "daily" cfg.daily_quota daily_usage)
  else if cfg.max_concurrent_jobs ≤ count_active_jobs jobs user_id then
    .error (.quotaExceeded "concurrent_jobs" cfg.max_concurrent_jobs
      (count_active_jobs jobs user_id))
  else
    .ok { id := job_id, user_id := user_id, status := .pending,
          priority := get_priority_for_tier tier, duration := duration,
          completed_at := none }

/-- `jobs.get(job_id)`: the stored job with the given id. -/
def find_job (jobs : List Job) (job_id : String) : Option Job :=
  jobs.find? fun j => j.id == job_id

/-- `PriorityQueue.remove` (local path): drop the first entry with the
given job id, reporting whether one was found. -/
def remove_first (job_id : String) : List (String × ℚ) → Bool × List (String × ℚ)
  | [] => (false, [])
  | e :: rest =>
    if e.1 == job_id then (true, rest)
    else
      let r := remove_first job_id rest
      (r.1, e :: r.2)

/-- `JobService.cancel_job`: look the job up (JobNotFound), check
ownership (PermissionDenied), check the transition table admits
`current → CANCELLED` (JobCancelled), remove the job from its priority
queue when it is QUEUED (ignoring whether anything was found), then mark
it CANCELLED with `completed_at = now`. -/
def cancel_job (jobs : List Job) (qs : QueueState) (job_id caller_id : String)
    (now : ℚ) : Except CancelError (Job × QueueState) :=
  match find_job jobs job_id with
  | none => .error (.jobNotFound job_id)
  | some job =>
    if job.user_id ≠ caller_id then
      .error (.permissionDenied job_id)
    else if ¬ can_transition job.status .cancelled then
      .error (.jobCancelled job_id job.status)
    else
      let qs1 :=
        if job.status = .queued then
          set_queue qs job.priority (remove_first job_id (queue_of qs job.priority)).2
        else qs
      .ok ({ job with status := .cancelled, completed_at := some now }, qs1)

/-! ## Theorems -/

/-- C3: `can_transition` holds exactly for the seven edges
PENDING→QUEUED, PENDING→CANCELLED, QUEUED→PROCESSING, QUEUED→CANCELLED,
QUEUED→EXPIRED, PROCESSING→COMPLETED, PROCESSING→FAILED; no pair whose
source is COMPLETED, FAILED, CANCELLED or EXPIRED is admitted; and the
validated helper `_update_job_status` changes a status only along an
admitted edge, leaving the job untouched otherwise. -/
theorem c3_job_transitions :
    (∀ f t : JobStatus, can_transition f t = true ↔
        (f, t) ∈ ([(.pending, .queued), (.pending, .cancelled),
          (.queued, .processing), (.queued, .cancelled), (.queued, .expired),
          (.processing, .completed), (.processing, .failed)] :
          List (JobStatus × JobStatus))) ∧
    (∀ f t : JobStatus,
        f = .completed ∨ f = .failed ∨ f = .cancelled ∨ f = .expired →
        can_transition f t = false) ∧
    (∀ (j : Job) (s : JobStatus),
        ((update_job_status j s).1 = true →
          can_transition j.status s = true ∧ (update_job_status j s).2.status = s) ∧
        ((update_job_status j s).1 = false → (update_job_status j s).2 = j)) := by
  refine ⟨?_, ?_, ?_⟩
  · intro f t
    cases f <;> cases t <;> decide
  · intro f t h
    rcases h with h | h | h | h <;> subst h <;> cases t <;> decide
  · intro j s
    constructor
    · intro h1
      by_cases h : can_transition j.status s = true
      · exact ⟨h, by simp [update_job_status, h]⟩
      · simp [update_job_status, h] at h1
    · intro h1
      by_cases h : can_transition j.status s = true
      · simp [update_job_status, h] at h1
      · simp [update_job_status, h]

theorem c3_job_transitions_witness :
    can_transition JobStatus.pending JobStatus.queued = true ∧
    can_transition JobStatus.completed JobStatus.queued = false ∧
    (update_job_status
      { id := "j1", user_id := "u1", status := JobStatus.pending,
        priority := QueuePriority.normal, duration := 10, completed_at := none }
      JobStatus.queued).2.status = JobStatus.queued :=
  ⟨(c3_job_transitions.1 JobStatus.pending JobStatus.queued).mpr (by decide),
   c3_job_transitions.2.1 JobStatus.completed JobStatus.queued (Or.inl rfl),
   ((c3_job_transitions.2.2
      { id := "j1", user_id := "u1", status := JobStatus.pending,
        priority := QueuePriority.normal, duration := 10, completed_at := none }
      JobStatus.queued).1 (by decide)).2⟩

/-- C10: `get_priority_for_tier` maps ENTERPRISE to CRITICAL, PRO to
HIGH, DEVELOPER to NORMAL, and every other tier — in particular FREE —
to the NORMAL default. -/
theorem c10_tier_priority :
    get_priority_for_tier .enterprise = .critical ∧
    get_priority_for_tier .pro = .high ∧
    get_priority_for_tier .developer = .normal ∧
    ∀ t : UserTier, t ≠ .enterprise → t ≠ .pro → t ≠ .developer →
      get_priority_for_tier t = .normal := by
  refine ⟨rfl, rfl, rfl, ?_⟩
  intro t h1 h2 h3
  cases t <;> simp_all [get_priority_for_tier]

theorem c10_tier_priority_witness :
    get_priority_for_tier .free = .normal :=
  c10_tier_priority.2.2.2 .free (by decide) (by decide) (by decide)

/-- C6, counterexample: at position 1 in the HIGH queue with one CRITICAL
job ahead, the code returns a 0-second estimate while the claimed formula
`(p − 1 + 0.5·|CRITICAL|) · 30` gives 15 seconds (the code truncates each
weighted term with `int()` before multiplying by 30). -/
theorem c6_wait_estimate_counterexample :
    estimate_wait 1 .high 1 0 = 0 ∧ ((1 : ℚ) - 1 + (1 / 2) * 1) * 30 = 15 := by
  constructor
  · simp [estimate_wait, ESTIMATED_PROCESSING_TIME]
    norm_num
  · norm_num

/-- C6, amended: the wait estimate is `(p−1)·30` for CRITICAL,
`(p−1 + ⌊0.5·|CRITICAL|⌋)·30` for HIGH and
`(p−1 + ⌊0.3·|CRITICAL|⌋ + ⌊0.15·|HIGH|⌋)·30` for NORMAL — each
weighted queue-length contribution is truncated to an integer before the
30-second-per-job multiplication. -/
theorem c6_wait_estimate (p lc lh : Nat) :
    estimate_wait p .critical lc lh = ((p : Int) - 1) * 30 ∧
    estimate_wait p .high lc lh = ((p : Int) - 1 + (lc / 2 : Nat)) * 30 ∧
    estimate_wait p .normal lc lh =
      ((p : Int) - 1 + (3 * lc / 10 : Nat) + (3 * lh / 20 : Nat)) * 30 := by
  have hdiv : ∀ a b : Nat, ⌊((a : ℚ) / (b : ℚ))⌋ = ((a / b : Nat) : Int) := by
    intro a b
    rw [Rat.floor_natCast_div_natCast]
    exact (Int.natCast_div a b).symm
  have h1 : ⌊(lc : ℚ) * (1 / 2)⌋ = ((lc / 2 : Nat) : Int) := by
    rw [show (lc : ℚ) * (1 / 2) = ((lc : Nat) : ℚ) / ((2 : Nat) : ℚ) by push_cast; ring]
    exact hdiv lc 2
  have h2 : ⌊(lc : ℚ) * (3 / 10)⌋ = ((3 * lc / 10 : Nat) : Int) := by
    rw [show (lc : ℚ) * (3 / 10) = ((3 * lc : Nat) : ℚ) / ((10 : Nat) : ℚ) by
      push_cast; ring]
    exact hdiv (3 * lc) 10
  have h3 : ⌊(lh : ℚ) * (3 / 10) * (1 / 2)⌋ = ((3 * lh / 20 : Nat) : Int) := by
    rw [show (lh : ℚ) * (3 / 10) * (1 / 2) = ((3 * lh : Nat) : ℚ) / ((20 : Nat) : ℚ) by
      push_cast; ring]
    exact hdiv (3 * lh) 20
  refine ⟨?_, ?_, ?_⟩ <;>
    simp only [estimate_wait, ESTIMATED_PROCESSING_TIME, h1, h2, h3] <;> ring

/-- C7: when the backing-store call raises, `check_and_increment` on the
Redis path still succeeds and fails open: `allowed = true`,
`remaining = limit − 1`, `reset_at = ⌊now + window⌋` and the tier's
limit, with the 60-second window. -/
theorem c7_fail_open (tier : UserTier) (now : ℚ) (err : String) (hnow : 0 ≤ now) :
    check_and_increment_redis tier now (.error err) =
      { allowed := true,
        limit := (get_tier_config tier).rate_limit_per_minute,
        remaining := ((get_tier_config tier).rate_limit_per_minute : Int) - 1,
        reset_at := ⌊now + 60⌋,
        window_seconds := 60 } := by
  simp only [check_and_increment_redis, check_redis, py_int]
  rw [if_neg]
  · norm_num
  · push_cast
    intro hcon
    linarith

theorem c7_fail_open_witness :
    check_and_increment_redis .pro 100 (.error "down") =
      { allowed := true, limit := 100, remaining := 99, reset_at := 160,
        window_seconds := 60 } := by
  have h := c7_fail_open .pro 100 "down" (by norm_num)
  rw [h]
  have hfl : ⌊(100 : ℚ) + 60⌋ = 160 := by
    rw [show (100 : ℚ) + 60 = ((160 : Int) : ℚ) by norm_num, Int.floor_intCast]
  simp [get_tier_config, hfl]

/-- C9, counterexample: inserting `("b", 3)` into the queue `[("a", 5)]`
keeps the queue sorted but `_enqueue_local` returns `len(queue) = 2`,
while the 1-indexed rank of the inserted job `"b"` is 1. -/
theorem c9_enqueue_counterexample :
    (enqueue_local [("a", 5)] "b" 3).2 = 2 ∧
    rank_of "b" (enqueue_local [("a", 5)] "b" 3).1 = 1 := by
  constructor
  · decide
  · decide

theorem sorted_insert_last_length (p : String × ℚ) (l : List (String × ℚ)) :
    (sorted_insert_last p l).length = l.length + 1 := by
  induction l with
  | nil => rfl
  | cons q qs ih =>
    by_cases h : q.2 ≤ p.2
    · simp [sorted_insert_last, h, ih]
    · simp [sorted_insert_last, h]

theorem mem_sorted_insert_last {x p : String × ℚ} {l : List (String × ℚ)}
    (hx : x ∈ sorted_insert_last p l) : x = p ∨ x ∈ l := by
  induction l with
  | nil =>
    simp [sorted_insert_last] at hx
    exact Or.inl hx
  | cons q qs ih =>
    by_cases h : q.2 ≤ p.2
    · simp only [sorted_insert_last, if_pos h, List.mem_cons] at hx
      rcases hx with hx | hx
      · exact Or.inr (by simp [hx])
      · rcases ih hx with hx | hx
        · exact Or.inl hx
        · exact Or.inr (by simp [hx])
    · simp only [sorted_insert_last, if_neg h, List.mem_cons] at hx
      rcases hx with hx | hx
      · exact Or.inl hx
      · exact Or.inr (by simpa using hx)

theorem sorted_insert_last_pairwise {p : String × ℚ} {l : List (String × ℚ)}
    (hl : l.Pairwise fun x y => x.2 ≤ y.2) :
    (sorted_insert_last p l).Pairwise fun x y => x.2 ≤ y.2 := by
  induction l with
  | nil => simp [sorted_insert_last]
  | cons q qs ih =>
    rw [List.pairwise_cons] at hl
    by_cases h : q.2 ≤ p.2
    · rw [sorted_insert_last, if_pos h, List.pairwise_cons]
      refine ⟨?_, ih hl.2⟩
      intro x hx
      rcases mem_sorted_insert_last hx with hx | hx
      · rw [hx]; exact h
      · exact hl.1 x hx
    · rw [sorted_insert_last, if_neg h, List.pairwise_cons]
      have hpq : p.2 ≤ q.2 := le_of_lt (lt_of_not_le h)
      refine ⟨?_, List.pairwise_cons.mpr hl⟩
      intro x hx
      rcases List.mem_cons.mp hx with hx | hx
      · rw [hx]; exact hpq
      · exact le_trans hpq (hl.1 x hx)

theorem sorted_insert_last_append {p : String × ℚ} {l : List (String × ℚ)}
    (h : ∀ e ∈ l, e.2 ≤ p.2) : sorted_insert_last p l = l ++ [p] := by
  induction l with
  | nil => rfl
  | cons q qs ih =>
    rw [sorted_insert_last, if_pos (h q (by simp))]
    simp only [List.cons_append, List.cons.injEq, true_and]
    exact ih fun e he => h e (by simp [he])

/-- C9, amended: `_enqueue_local` keeps the queue sorted ascending by
score and returns the length of the queue after insertion; this equals
the inserted job's 1-indexed rank exactly in the common case where the
new score is ≥ every score already queued (scores are enqueue times, so
this holds for monotone clocks), but not in general. -/
theorem c9_enqueue_local (queue : List (String × ℚ)) (jid : String) (score : ℚ)
    (hsorted : queue.Pairwise fun x y => x.2 ≤ y.2) :
    ((enqueue_local queue jid score).1.Pairwise fun x y => x.2 ≤ y.2) ∧
    (enqueue_local queue jid score).2 = queue.length + 1 ∧
    ((∀ e ∈ queue, e.2 ≤ score) → (∀ e ∈ queue, e.1 ≠ jid) →
      rank_of jid (enqueue_local queue jid score).1 = queue.length + 1) := by
  refine ⟨sorted_insert_last_pairwise hsorted, sorted_insert_last_length _ _, ?_⟩
  intro hmax hfresh
  have happ : sorted_insert_last (jid, score) queue = queue ++ [(jid, score)] :=
    sorted_insert_last_append fun e he => hmax e he
  have hnotmem : jid ∉ queue.map Prod.fst := by
    intro hmem
    rcases List.mem_map.mp hmem with ⟨e, he, hfst⟩
    exact hfresh e he hfst
  simp only [enqueue_local, rank_of, happ, List.map_append, List.map_cons,
    List.map_nil]
  rw [List.indexOf_append_of_not_mem hnotmem]
  simp [List.indexOf_cons_self, List.length_map]

theorem c9_enqueue_local_witness :
    ((enqueue_local [("a", 1), ("b", 2)] "c" 3).1.Pairwise fun x y => x.2 ≤ y.2) ∧
    (enqueue_local [("a", 1), ("b", 2)] "c" 3).2 = 3 ∧
    rank_of "c" (enqueue_local [("a", 1), ("b", 2)] "c" 3).1 = 3 := by
  have h := c9_enqueue_local [("a", 1), ("b", 2)] "c" 3 (by decide)
  exact ⟨h.1, h.2.1, h.2.2 (by decide) (by decide)⟩

theorem dequeue_fallback_none_iff (qs : QueueState) :
    (dequeue_fallback qs).1 = none ↔
      qs.critical = [] ∧ qs.high = [] ∧ qs.normal = [] := by
  obtain ⟨c, h, n⟩ := qs
  cases c <;> cases h <;> cases n <;> simp [dequeue_fallback]

theorem dequeue_fallback_removes (qs : QueueState) (jid : String) (st' : QueueState)
    (heq : dequeue_fallback qs = (some jid, st')) :
    ∃ p e rest, queue_of qs p = e :: rest ∧ e.1 = jid ∧ st' = set_queue qs p rest := by
  obtain ⟨c, h, n⟩ := qs
  cases c with
  | cons e rest =>
    simp [dequeue_fallback] at heq
    exact ⟨.critical, e, rest, rfl, heq.1, by simp [set_queue, heq.2.symm]⟩
  | nil =>
    cases h with
    | cons e rest =>
      simp [dequeue_fallback] at heq
      exact ⟨.high, e, rest, rfl, heq.1, by simp [set_queue, heq.2.symm]⟩
    | nil =>
      cases n with
      | cons e rest =>
        simp [dequeue_fallback] at heq
        exact ⟨.normal, e, rest, rfl, heq.1, by simp [set_queue, heq.2.symm]⟩
      | nil => simp [dequeue_fallback] at heq

/-- C5: `_dequeue_local` returns no job id iff all three queues are
empty; whenever the queue of the weighted choice is non-empty its head is
removed and returned; when it is empty the fixed-order CRITICAL, HIGH,
NORMAL fallback runs; and every returned id is the head of some queue,
which is removed from the state. -/
theorem c5_dequeue (qs : QueueState) (r : Nat) :
    ((dequeue_local qs r).1 = none ↔
      qs.critical = [] ∧ qs.high = [] ∧ qs.normal = []) ∧
    (∀ jid st', dequeue_local qs r = (some jid, st') →
      ∃ p e rest, queue_of qs p = e :: rest ∧ e.1 = jid ∧
        st' = set_queue qs p rest) ∧
    (∀ p, weighted_choice r = some p → ∀ e rest, queue_of qs p = e :: rest →
      dequeue_local qs r = (some e.1, set_queue qs p rest)) ∧
    (∀ p, weighted_choice r = some p → queue_of qs p = [] →
      dequeue_local qs r = dequeue_fallback qs) := by
  cases hw : weighted_choice r with
  | none =>
    refine ⟨?_, ?_, ?_, ?_⟩
    · rw [show dequeue_local qs r = dequeue_fallback qs by
        simp [dequeue_local, hw]]
      exact dequeue_fallback_none_iff qs
    · intro jid st' heq
      exact dequeue_fallback_removes qs jid st' (by simpa [dequeue_local, hw] using heq)
    · intro p hp
      simp [hw] at hp
    · intro p hp
      simp [hw] at hp
  | some p =>
    cases hq : queue_of qs p with
    | nil =>
      have hd : dequeue_local qs r = dequeue_fallback qs := by
        simp [dequeue_local, hw, hq]
      refine ⟨?_, ?_, ?_, ?_⟩
      · rw [hd]; exact dequeue_fallback_none_iff qs
      · intro jid st' heq
        exact dequeue_fallback_removes qs jid st' (hd ▸ heq)
      · intro p' hp' e rest hq'
        have hpp : p' = p := by simp [hw] at hp'; exact hp'.symm
        rw [hpp, hq] at hq'
        exact absurd hq' (by simp)
      · intro p' hp' hq'
        exact hd
    | cons e rest =>
      have hd : dequeue_local qs r = (some e.1, set_queue qs p rest) := by
        simp [dequeue_local, hw, hq]
      refine ⟨?_, ?_, ?_, ?_⟩
      · rw [hd]
        constructor
        · intro h
          simp at h
        · intro hall
          have hnil : queue_of qs p = [] := by
            cases p <;> simp [queue_of, hall.1, hall.2.1, hall.2.2]
          rw [hq] at hnil
          simp at hnil
      · intro jid st' heq
        rw [hd] at heq
        have h1 : e.1 = jid := by
          have := congrArg Prod.fst heq
          simpa using this
        have h2 : st' = set_queue qs p rest := by
          have := congrArg Prod.snd heq
          simpa using this.symm
        exact ⟨p, e, rest, hq, h1, h2⟩
      · intro p' hp' e' rest' hq'
        have hpp : p' = p := by simp [hw] at hp'; exact hp'.symm
        subst hpp
        rw [hq] at hq'
        injection hq' with he hrest
        rw [← he, ← hrest]
        exact hd
      · intro p' hp' hq'
        have hpp : p' = p := by simp [hw] at hp'; exact hp'.symm
        rw [hpp, hq] at hq'
        exact absurd hq' (by simp)

theorem c5_dequeue_witness :
    (dequeue_local ⟨[], [], []⟩ 1).1 = none ∧
    dequeue_local ⟨[("j", 0)], [], []⟩ 1 = (some "j", ⟨[], [], []⟩) :=
  ⟨(c5_dequeue ⟨[], [], []⟩ 1).1.mpr ⟨rfl, rfl, rfl⟩,
   (c5_dequeue ⟨[("j", 0)], [], []⟩ 1).2.2.1 .critical (by decide) ("j", 0) [] rfl⟩

/-- C4: `create_job` runs its admission checks in program order —
(1) `tier.can_generate`, else InsufficientTier(required = DEVELOPER);
(2) `duration ≤ tier.max_video_duration`, else InsufficientTier(required
= PRO if duration ≤ 120 else ENTERPRISE); (3) daily quota, only enforced
when `tier.daily_quota > 0` (so never for ENTERPRISE, whose quota is −1),
else QuotaExceeded("daily", limit, used); (4) the concurrent-job count —
which excludes COMPLETED, FAILED, CANCELLED and EXPIRED jobs — else
QuotaExceeded("concurrent_jobs", …); and only when all four pass is a
PENDING job created. -/
theorem c4_create_job (tier : UserTier) (duration daily_usage : Nat)
    (jobs : List Job) (uid jid : String) :
    ((get_tier_config tier).can_generate = false →
      create_job tier duration daily_usage jobs uid jid =
        .error (.insufficientTier tier .developer)) ∧
    ((get_tier_config tier).can_generate = true →
      (get_tier_config tier).max_video_duration < duration →
      create_job tier duration daily_usage jobs uid jid =
        .error (.insufficientTier tier
          (if duration ≤ 120 then .pro else .enterprise))) ∧
    ((get_tier_config tier).can_generate = true →
      duration ≤ (get_tier_config tier).max_video_duration →
      0 < (get_tier_config tier).daily_quota →
      (get_tier_config tier).daily_quota ≤ (daily_usage : Int) →
      create_job tier duration daily_usage jobs uid jid =
        .error (.quotaExceeded "daily" (get_tier_config tier).daily_quota
          daily_usage)) ∧
    (tier = .enterprise → ∀ ql qu,
      create_job tier duration daily_usage jobs uid jid ≠
        .error (.quotaExceeded "daily" ql qu)) ∧
    ((get_tier_config tier).can_generate = true →
      duration ≤ (get_tier_config tier).max_video_duration →
      ¬(0 < (get_tier_config tier).daily_quota ∧
        (get_tier_config tier).daily_quota ≤ (daily_usage : Int)) →
      (get_tier_config tier).max_concurrent_jobs ≤ count_active_jobs jobs uid →
      create_job tier duration daily_usage jobs uid jid =
        .error (.quotaExceeded "concurrent_jobs"
          (get_tier_config tier).max_concurrent_jobs
          (count_active_jobs jobs uid))) ∧
    ((get_tier_config tier).can_generate = true →
      duration ≤ (get_tier_config tier).max_video_duration →
      ¬(0 < (get_tier_config tier).daily_quota ∧
        (get_tier_config tier).daily_quota ≤ (daily_usage : Int)) →
      count_active_jobs jobs uid < (get_tier_config tier).max_concurrent_jobs →
      create_job tier duration daily_usage jobs uid jid =
        .ok { id := jid, user_id := uid, status := .pending,
              priority := get_priority_for_tier tier, duration := duration,
              completed_at := none }) ∧
    (count_active_jobs jobs uid =
      (jobs.filter fun j => j.user_id == uid &&
        !([JobStatus.completed, JobStatus.failed, JobStatus.cancelled,
           JobStatus.expired].contains j.status)).length) := by
  refine ⟨?_, ?_, ?_, ?_, ?_, ?_, ?_⟩
  · intro h1
    rw [create_job, if_pos (by simp [h1])]
  · intro h1 h2
    rw [create_job, if_neg (by simp [h1]), if_pos h2]
  · intro h1 h2 h3 h4
    rw [create_job, if_neg (by simp [h1]), if_neg (not_lt.mpr h2), if_pos ⟨h3, h4⟩]
  · intro htier ql qu
    subst htier
    rw [create_job]
    split_ifs <;> simp_all [get_tier_config]
  · intro h1 h2 h3 h4
    rw [create_job, if_neg (by simp [h1]), if_neg (not_lt.mpr h2), if_neg h3,
      if_pos h4]
  · intro h1 h2 h3 h4
    rw [create_job, if_neg (by simp [h1]), if_neg (not_lt.mpr h2), if_neg h3,
      if_neg (not_le.mpr h4)]
  · rw [count_active_jobs, List.countP_eq_length_filter]
    rfl

theorem c4_create_job_witness :
    create_job .free 10 0 [] "u" "j" = .error (.insufficientTier .free .developer) ∧
    create_job .developer 10 0 [] "u" "j" =
      .ok { id := "j", user_id := "u", status := .pending,
            priority := .normal, duration := 10, completed_at := none } :=
  ⟨(c4_create_job .free 10 0 [] "u" "j").1 rfl,
   (c4_create_job .developer 10 0 [] "u" "j").2.2.2.2.2.1 rfl (by norm_num [get_tier_config])
     (by norm_num [get_tier_config]) (by norm_num [get_tier_config, count_active_jobs])⟩

/-- C8: `cancel_job` raises JobNotFound when no job with the id exists,
PermissionDenied when the job belongs to another user, JobCancelled
exactly when the current status admits no transition to CANCELLED (i.e.
the status is neither PENDING nor QUEUED — so a second cancel fails), and
otherwise marks the job CANCELLED with `completed_at` set, first removing
it from its priority queue when it was QUEUED; a removal that finds
nothing leaves the queue unchanged and the cancellation still proceeds. -/
theorem c8_cancel_job (jobs : List Job) (qs : QueueState) (jid uid : String)
    (now : ℚ) :
    (find_job jobs jid = none →
      cancel_job jobs qs jid uid now = .error (.jobNotFound jid)) ∧
    (∀ j, find_job jobs jid = some j → j.user_id ≠ uid →
      cancel_job jobs qs jid uid now = .error (.permissionDenied jid)) ∧
    (∀ j, find_job jobs jid = some j → j.user_id = uid →
      (cancel_job jobs qs jid uid now = .error (.jobCancelled jid j.status) ↔
        (j.status ≠ .pending ∧ j.status ≠ .queued))) ∧
    (∀ j, find_job jobs jid = some j → j.user_id = uid → j.status = .pending →
      cancel_job jobs qs jid uid now =
        .ok ({ j with status := .cancelled, completed_at := some now }, qs)) ∧
    (∀ j, find_job jobs jid = some j → j.user_id = uid → j.status = .queued →
      cancel_job jobs qs jid uid now =
        .ok ({ j with status := .cancelled, completed_at := some now },
          set_queue qs j.priority (remove_first jid (queue_of qs j.priority)).2)) ∧
    (∀ l : List (String × ℚ), (∀ e ∈ l, e.1 ≠ jid) →
      remove_first jid l = (false, l)) := by
  refine ⟨?_, ?_, ?_, ?_, ?_, ?_⟩
  · intro h
    simp [cancel_job, h]
  · intro j hf hne
    simp [cancel_job, hf, hne]
  · intro j hf huid
    constructor
    · intro heq
      by_contra hcon
      rw [not_and_or, not_not, not_not] at hcon
      rcases hcon with hst | hst <;>
        simp [cancel_job, hf, huid, hst, can_transition, JOB_TRANSITIONS] at heq
    · intro hcon
      have hct : ¬ can_transition j.status .cancelled = true := by
        cases hs : j.status <;>
          simp_all [can_transition, JOB_TRANSITIONS]
      simp [cancel_job, hf, huid, hct]
  · intro j hf huid hst
    simp [cancel_job, hf, huid, hst, can_transition, JOB_TRANSITIONS]
  · intro j hf huid hst
    simp [cancel_job, hf, huid, hst, can_transition, JOB_TRANSITIONS]
  · intro l
    induction l with
    | nil => intro _; rfl
    | cons e rest ih =>
      intro hl
      have he : (e.1 == jid) = false := by
        simpa using hl e (by simp)
      have hr := ih fun x hx => hl x (by simp [hx])
      simp [remove_first, he, hr]

theorem c8_cancel_job_witness :
    cancel_job
      [{ id := "j", user_id := "u", status := .queued, priority := .normal,
         duration := 10, completed_at := none }]
      ⟨[], [], [("j", 5)]⟩ "j" "u" 99 =
      .ok ({ id := "j", user_id := "u", status := .cancelled,
             priority := .normal, duration := 10, completed_at := some 99 },
           ⟨[], [], []⟩) := by
  have h := (c8_cancel_job
    [{ id := "j", user_id := "u", status := .queued, priority := .normal,
       duration := 10, completed_at := none }]
    ⟨[], [], [("j", 5)]⟩ "j" "u" 99).2.2.2.2.1
    { id := "j", user_id := "u", status := .queued, priority := .normal,
      duration := 10, completed_at := none } rfl rfl rfl
  simpa [set_queue, queue_of, remove_first] using h

theorem foldl_min_mem (s : ℚ) (l : List ℚ) : l.foldl min s ∈ s :: l := by
  induction l generalizing s with
  | nil => simp
  | cons x xs ih =>
    rw [List.foldl_cons]
    rcases List.mem_cons.mp (ih (min s x)) with h | h
    · rw [h]
      rcases min_choice s x with hm | hm <;> rw [hm] <;> simp
    · simp [h]

theorem foldl_min_le (s : ℚ) (l : List ℚ) : ∀ x ∈ s :: l, l.foldl min s ≤ x := by
  induction l generalizing s with
  | nil =>
    intro x hx
    simp at hx
    simp [hx]
  | cons y ys ih =>
    intro x hx
    rw [List.foldl_cons]
    rcases List.mem_cons.mp hx with hx | hx
    · subst hx
      exact le_trans (ih (min x y) (min x y) (by simp)) (min_le_left x y)
    · rcases List.mem_cons.mp hx with hx2 | hx2
      · subst hx2
        exact le_trans (ih (min s x) (min s x) (by simp)) (min_le_right s x)
      · exact ih (min s y) x (by simp [hx2])

/-- C1: on a state whose timestamps are non-negative (they are wall-clock
times) and with a positive limit, one run of the rate-limit script first
drops every entry with score ≤ now − window; with `c` remaining entries,
if `c < limit` it inserts `(request_id, now)` and returns
`(true, limit − c − 1, ⌊now + window⌋)`, and if `c ≥ limit` it inserts
nothing — the state is the expiry-pruned one — and returns
`(false, 0, ⌊s_min + window⌋)` for `s_min` the minimum remaining score. -/
theorem c1_rate_limit (window : ℚ) (limit : Nat) (now : ℚ) (req : String)
    (entries : List (String × ℚ)) (hpos : 0 < limit)
    (hnn : ∀ e ∈ entries, 0 ≤ e.2) :
    ((entries.filter fun e => !decide (e.2 ≤ now - window)).length < limit →
      rate_limit_script window limit now req entries =
        ((true,
          (limit : Int) -
            (entries.filter fun e => !decide (e.2 ≤ now - window)).length - 1,
          ⌊now + window⌋),
         (entries.filter fun e => !decide (e.2 ≤ now - window)) ++ [(req, now)])) ∧
    (limit ≤ (entries.filter fun e => !decide (e.2 ≤ now - window)).length →
      (rate_limit_script window limit now req entries).2 =
        entries.filter (fun e => !decide (e.2 ≤ now - window)) ∧
      ∃ smin,
        smin ∈ (entries.filter fun e => !decide (e.2 ≤ now - window)).map Prod.snd ∧
        (∀ s ∈ (entries.filter fun e => !decide (e.2 ≤ now - window)).map Prod.snd,
          smin ≤ s) ∧
        (rate_limit_script window limit now req entries).1 =
          (false, 0, ⌊smin + window⌋)) := by
  have hfe : (entries.filter fun e => !decide (0 ≤ e.2 ∧ e.2 ≤ now - window)) =
      entries.filter fun e => !decide (e.2 ≤ now - window) := by
    apply List.filter_congr
    intro e he
    have h0 : 0 ≤ e.2 := hnn e he
    have : decide (0 ≤ e.2 ∧ e.2 ≤ now - window) = decide (e.2 ≤ now - window) :=
      decide_eq_decide.mpr (and_iff_right h0)
    rw [this]
  constructor
  · intro hlt
    simp only [rate_limit_script, hfe]
    rw [if_pos hlt]
  · intro hge
    have hne : (entries.filter fun e => !decide (e.2 ≤ now - window)) ≠ [] := by
      intro h0
      rw [h0] at hge
      simp at hge
      omega
    simp only [rate_limit_script, hfe]
    rw [if_neg (not_lt.mpr hge)]
    refine ⟨rfl, ?_⟩
    obtain ⟨s, rest, hsr⟩ : ∃ s rest,
        (entries.filter fun e => !decide (e.2 ≤ now - window)).map Prod.snd =
          s :: rest := by
      cases hm : (entries.filter fun e => !decide (e.2 ≤ now - window)).map Prod.snd with
      | nil => exact absurd (List.map_eq_nil_iff.mp hm) hne
      | cons s rest => exact ⟨s, rest, rfl⟩
    have hos : oldest_score (entries.filter fun e => !decide (e.2 ≤ now - window)) now =
        rest.foldl min s := by
      rw [oldest_score, hsr]
    refine ⟨oldest_score (entries.filter fun e => !decide (e.2 ≤ now - window)) now,
      ?_, ?_, rfl⟩
    · rw [hos, hsr]
      exact foldl_min_mem s rest
    · intro x hx
      rw [hos]
      rw [hsr] at hx
      exact foldl_min_le s rest x hx

theorem c1_rate_limit_witness :
    rate_limit_script 60 2 100 "r1" [("a", 50)] =
      ((true, 0, 160), [("a", 50), ("r1", 100)]) := by
  have h := (c1_rate_limit 60 2 100 "r1" [("a", 50)] (by norm_num)
    (by intro e he; simp at he; simp [he])).1 (by norm_num [List.filter])
  have h2 : ⌊(100 : ℚ) + 60⌋ = 160 := by
    rw [show (100 : ℚ) + 60 = ((160 : Int) : ℚ) by norm_num, Int.floor_intCast]
  rw [h, h2]
  norm_num

/-- Membership of a timestamp in the half-open window `(a, a + w]`. -/
def in_window (a w x : ℚ) : Bool :=
  decide (a < x ∧ x ≤ a + w)

theorem mem_run_allowed {w : ℚ} {L : Nat} (ts : List ℚ) :
    ∀ (st : List ℚ) (x : ℚ), x ∈ run_allowed w L st ts → x ∈ ts := by
  induction ts with
  | nil =>
    intro st x hx
    simp [run_allowed] at hx
  | cons t ts' ih =>
    intro st x hx
    simp only [run_allowed, List.mem_append] at hx
    rcases hx with hx | hx
    · split at hx
      · simp at hx
        simp [hx]
      · simp at hx
    · exact List.mem_cons_of_mem _ (ih _ _ hx)

theorem run_allowed_cons (w : ℚ) (L : Nat) (st : List ℚ) (t : ℚ) (ts : List ℚ) :
    run_allowed w L st (t :: ts) =
      if (check_local_prune w t st).length < L then
        t :: run_allowed w L (check_local_prune w t st ++ [t]) ts
      else run_allowed w L (check_local_prune w t st) ts := by
  by_cases h : (check_local_prune w t st).length < L <;>
    simp [run_allowed, check_local_step, h]

theorem prune_filter_in_window {w a t : ℚ} (hta : t - w ≤ a) (st : List ℚ) :
    (check_local_prune w t st).filter (in_window a w) = st.filter (in_window a w) := by
  rw [check_local_prune, List.filter_filter]
  apply List.filter_congr
  intro x _
  cases hI : in_window a w x
  · simp
  · have hI' : decide (a < x ∧ x ≤ a + w) = true := hI
    have hax : a < x := (of_decide_eq_true hI').1
    simp only [Bool.true_and]
    exact decide_eq_true (by linarith)

theorem run_allowed_bound (w : ℚ) (L : Nat) (a : ℚ) (ts : List ℚ) :
    ∀ st : List ℚ, ts.Pairwise (fun x y => x ≤ y) →
      (∀ s ∈ st, ∀ t ∈ ts, s ≤ t) →
      ((st.filter (in_window a w)).length +
          ((run_allowed w L st ts).filter (in_window a w)).length ≤ L ∨
        ((run_allowed w L st ts).filter (in_window a w)).length = 0) := by
  induction ts with
  | nil =>
    intro st _ _
    right
    simp [run_allowed]
  | cons t ts' ih =>
    intro st hpair hpast
    have hrel : ∀ u ∈ ts', t ≤ u := (List.pairwise_cons.mp hpair).1
    have hpair' : ts'.Pairwise (fun x y => x ≤ y) := (List.pairwise_cons.mp hpair).2
    rw [run_allowed_cons]
    by_cases hb : (check_local_prune w t st).length < L
    · rw [if_pos hb]
      have hpast2 : ∀ s ∈ check_local_prune w t st ++ [t], ∀ u ∈ ts', s ≤ u := by
        intro s hs u hu
        rcases List.mem_append.mp hs with hs | hs
        · exact hpast s (List.mem_of_mem_filter hs) u (List.mem_cons_of_mem t hu)
        · simp at hs
          subst hs
          exact hrel u hu
      rcases ih (check_local_prune w t st ++ [t]) hpair' hpast2 with IH | IH
      · cases hI : in_window a w t
        · -- allowed call outside the window
          have hlenA :
              ((t :: run_allowed w L (check_local_prune w t st ++ [t]) ts').filter
                (in_window a w)).length =
              ((run_allowed w L (check_local_prune w t st ++ [t]) ts').filter
                (in_window a w)).length := by
            rw [List.filter_cons, hI]
            simp
          have hst2f :
              (((check_local_prune w t st ++ [t]).filter (in_window a w))).length =
              ((check_local_prune w t st).filter (in_window a w)).length := by
            simp [List.filter_append, List.filter_cons, hI]
          by_cases hz :
              ((run_allowed w L (check_local_prune w t st ++ [t]) ts').filter
                (in_window a w)).length = 0
          · right
            omega
          · left
            obtain ⟨u, hu⟩ := List.exists_mem_of_length_pos (Nat.pos_of_ne_zero hz)
            have huA := List.mem_of_mem_filter hu
            have huprop : a < u ∧ u ≤ a + w := by
              have hh := List.of_mem_filter hu
              simpa [in_window] using hh
            have htu : t ≤ u := hrel u (mem_run_allowed ts' _ u huA)
            have hta : t - w ≤ a := by linarith [huprop.2]
            have hf1 := congrArg List.length (prune_filter_in_window hta st)
            omega
        · -- allowed call inside the window
          have hI' : decide (a < t ∧ t ≤ a + w) = true := hI
          have hprop := of_decide_eq_true hI'
          have hta : t - w ≤ a := by linarith [hprop.2]
          have hf1 := congrArg List.length (prune_filter_in_window hta st)
          have hlenA :
              ((t :: run_allowed w L (check_local_prune w t st ++ [t]) ts').filter
                (in_window a w)).length =
              ((run_allowed w L (check_local_prune w t st ++ [t]) ts').filter
                (in_window a w)).length + 1 := by
            rw [List.filter_cons, hI]
            simp
          have hst2f :
              (((check_local_prune w t st ++ [t]).filter (in_window a w))).length =
              ((check_local_prune w t st).filter (in_window a w)).length + 1 := by
            simp [List.filter_append, List.filter_cons, hI]
          left
          omega
      · -- no later admitted call lands in the window
        cases hI : in_window a w t
        · right
          rw [List.filter_cons, hI]
          exact IH
        · -- the admitted call at `t` is in the window
          have hI' : decide (a < t ∧ t ≤ a + w) = true := hI
          have hprop := of_decide_eq_true hI'
          have hta : t - w ≤ a := by linarith [hprop.2]
          have hf1 := congrArg List.length (prune_filter_in_window hta st)
          have hfle := List.length_filter_le (in_window a w) (check_local_prune w t st)
          have hlenA :
              ((t :: run_allowed w L (check_local_prune w t st ++ [t]) ts').filter
                (in_window a w)).length =
              ((run_allowed w L (check_local_prune w t st ++ [t]) ts').filter
                (in_window a w)).length + 1 := by
            rw [List.filter_cons, hI]
            simp
          left
          omega
    · rw [if_neg hb]
      have hpast1 : ∀ s ∈ check_local_prune w t st, ∀ u ∈ ts', s ≤ u := by
        intro s hs u hu
        exact hpast s (List.mem_of_mem_filter hs) u (List.mem_cons_of_mem t hu)
      rcases ih (check_local_prune w t st) hpair' hpast1 with IH | IH
      · by_cases hz :
            ((run_allowed w L (check_local_prune w t st) ts').filter
              (in_window a w)).length = 0
        · right
          exact hz
        · left
          obtain ⟨u, hu⟩ := List.exists_mem_of_length_pos (Nat.pos_of_ne_zero hz)
          have huA := List.mem_of_mem_filter hu
          have huprop : a < u ∧ u ≤ a + w := by
            have hh := List.of_mem_filter hu
            simpa [in_window] using hh
          have htu : t ≤ u := hrel u (mem_run_allowed ts' _ u huA)
          have hta : t - w ≤ a := by linarith [huprop.2]
          have hf1 := congrArg List.length (prune_filter_in_window hta st)
          omega
      · right
        exact IH

/-- C2: over any sequence of `_check_local` calls at non-decreasing
times for one (user, endpoint) key with per-minute limit `limit`, at most
`limit` of the calls whose timestamps lie in any 60-second interval
`(a, a + 60]` return allowed = true. -/
theorem c2_sliding_window (limit : Nat) (ts : List ℚ)
    (hchain : ts.Chain' (fun x y => x ≤ y)) (a : ℚ) :
    ((run_allowed 60 limit [] ts).filter (in_window a 60)).length ≤ limit := by
  have hp : ts.Pairwise (fun x y => x ≤ y) := List.chain'_iff_pairwise.mp hchain
  rcases run_allowed_bound 60 limit a ts [] hp (by simp) with h | h
  · simpa using h
  · omega

theorem c2_sliding_window_witness :
    ((run_allowed 60 1 [] [0, 30]).filter (in_window 0 60)).length ≤ 1 :=
  c2_sliding_window 1 [0, 30] (by norm_num [List.chain'_cons]) 0

end Luma
